import Mathlib

/-!
Verification of the XandO transaction-dispatch and attribution subsystem.

This file gives a shallow embedding of the two attribution-codec
revisions in the repository (`normalizeHex`, `ensureHex`, `hasDataSuffix`
and the guarded `appendBuilderCodeToCalldata` of the `baseAttribution`
revision stored alongside `sendCallsCapabilities.ts`, plus the unguarded
`concatHex` revision of `baseAttribution.ts` that the live hook imports),
the capability detector (`supportsDataSuffixCapability`,
`getSendCallsDataSuffixSupport` from `src/lib/sendCallsCapabilities.ts`),
the dispatcher the application invokes (`sendContractCall` of
`src/useGameContractTx.ts`), and the status-tracking state machine of the
same hook, and settles the spec's testable properties against them.

Strings are modelled as `List Char`; JavaScript `toLowerCase` is modelled by
`Char.toLower` (the inputs of interest are ASCII hex strings).  The external
`Attribution.toDataSuffix` encoder from `ox/erc8021` is not part of this
repository; every theorem quantifies over an arbitrary deterministic encoder
`enc : List Char → List Char` standing for
`fun code => Attribution.toDataSuffix { codes := [code] }`.
-/

/-- Helper: the character list of a string literal. -/
def lchars (s : String) : List Char := s.toList

/-- The hex prefix `0x` as a character list. -/
def hex0x : List Char := ['0', 'x']

/-- JavaScript `String.prototype.toLowerCase`, restricted to the basic latin
range (the strings handled by the codec are ASCII hex strings). -/
def lowerStr (l : List Char) : List Char := l.map Char.toLower

/-- Embeds `normalizeHex` (`baseAttribution`):
`if (!value) return '0x'; if (value === '0x') return '0x';
return ('0x' + (value.startsWith('0x') ? value.slice(2) : value)).toLowerCase()`.
A missing (`undefined`) argument is `none`; the empty string is the other
falsy string value. -/
def normalizeHex (value : Option (List Char)) : List Char :=
  match value with
  | none => hex0x
  | some v =>
    if v = [] then hex0x
    else if v = hex0x then hex0x
    else lowerStr (hex0x ++ (if v.take 2 = hex0x then v.drop 2 else v))

/-- Embeds `ensureHex` (`baseAttribution`):
`if (!value) return undefined; const normalized = normalizeHex(value);
return normalized === '0x' ? undefined : normalized`. -/
def ensureHex (value : Option (List Char)) : Option (List Char) :=
  match value with
  | none => none
  | some v =>
    if v = [] then none
    else
      let normalized := normalizeHex (some v)
      if normalized = hex0x then none else some normalized

/-- Embeds `hasDataSuffix` (`baseAttribution`): normalize both arguments,
empty calldata never has a suffix, otherwise compare the hex tail. -/
def hasDataSuffix (calldata : List Char) (dataSuffix : Option (List Char)) : Bool :=
  match dataSuffix with
  | none => false
  | some ds =>
    if ds = [] then false
    else
      let normalizedCalldata := normalizeHex (some calldata)
      let normalizedSuffix := normalizeHex (some ds)
      if normalizedCalldata = hex0x then false
      else List.isSuffixOf (normalizedSuffix.drop 2) (normalizedCalldata.drop 2)

/-- Embeds `appendBuilderCodeToCalldata` (`baseAttribution`, current
revision): return the calldata untouched when no code is configured,
otherwise derive the suffix via the external encoder `enc`, normalize,
and append unless the normalized calldata already ends with the suffix. -/
def appendBuilderCodeToCalldata (enc : List Char → List Char)
    (calldata : List Char) (code : Option (List Char)) : List Char :=
  match code with
  | none => calldata
  | some c =>
    if c = [] then calldata
    else
      match ensureHex (some (enc c)) with
      | none => normalizeHex (some calldata)
      | some dataSuffix =>
        let normalizedCalldata := normalizeHex (some calldata)
        let normalizedSuffix := normalizeHex (some dataSuffix)
        if normalizedCalldata = hex0x then normalizedSuffix
        else
          let suffixBody := normalizedSuffix.drop 2
          let calldataBody := normalizedCalldata.drop 2
          if List.isSuffixOf suffixBody calldataBody then normalizedCalldata
          else lowerStr (hex0x ++ calldataBody ++ suffixBody)

/-- Lowercasing a basic latin character is idempotent. -/
theorem charToLower_idem (c : Char) : (c.toLower).toLower = c.toLower := by
  unfold Char.toLower
  by_cases h : c.toNat ≥ 65 ∧ c.toNat ≤ 90
  · rw [if_pos h]
    have hv : Nat.isValidChar (c.toNat + 32) := Or.inl (by omega)
    have ht : (Char.ofNat (c.toNat + 32)).toNat = c.toNat + 32 := by
      rw [Char.ofNat, dif_pos hv]
      simp [Char.ofNatAux, Char.toNat, UInt32.toNat, BitVec.toNat_ofNatLt]
    rw [if_neg]
    rw [ht]
    omega
  · rw [if_neg h, if_neg h]

/-- `lowerStr` is idempotent. -/
theorem lowerStr_idem (l : List Char) : lowerStr (lowerStr l) = lowerStr l := by
  simp only [lowerStr, List.map_map]
  exact List.map_congr_left (fun a _ => charToLower_idem a)

/-- Lowercasing fixes the `0x` prefix. -/
theorem lowerStr_hex0x : lowerStr hex0x = hex0x := by decide

/-- The shape of every `normalizeHex` output: either exactly `0x`, or a
string of length exceeding two that starts with `0x` and is lowercase. -/
def isNormalizedHex (l : List Char) : Prop :=
  l = hex0x ∨ (l.take 2 = hex0x ∧ 2 < l.length ∧ lowerStr l = l)

theorem hex0x_length : hex0x.length = 2 := by decide

/-- Unfolding equation of `normalizeHex` on a present argument. -/
theorem normalizeHex_some_eq (v : List Char) :
    normalizeHex (some v) =
      (if v = [] then hex0x
       else if v = hex0x then hex0x
       else lowerStr (hex0x ++ (if v.take 2 = hex0x then v.drop 2 else v))) := rfl

/-- Unfolding equation of `ensureHex` on a present argument. -/
theorem ensureHex_some_eq (v : List Char) :
    ensureHex (some v) =
      (if v = [] then none
       else if normalizeHex (some v) = hex0x then none
       else some (normalizeHex (some v))) := rfl

/-- Unfolding equation of `appendBuilderCodeToCalldata` on a present code. -/
theorem appendBuilderCodeToCalldata_some_eq (enc : List Char → List Char)
    (calldata c : List Char) :
    appendBuilderCodeToCalldata enc calldata (some c) =
      (if c = [] then calldata
       else
         match ensureHex (some (enc c)) with
         | none => normalizeHex (some calldata)
         | some dataSuffix =>
           let normalizedCalldata := normalizeHex (some calldata)
           let normalizedSuffix := normalizeHex (some dataSuffix)
           if normalizedCalldata = hex0x then normalizedSuffix
           else
             let suffixBody := normalizedSuffix.drop 2
             let calldataBody := normalizedCalldata.drop 2
             if List.isSuffixOf suffixBody calldataBody then normalizedCalldata
             else lowerStr (hex0x ++ calldataBody ++ suffixBody)) := rfl

theorem normalizeHex_isNormalized (v : Option (List Char)) :
    isNormalizedHex (normalizeHex v) := by
  match v with
  | none => exact Or.inl rfl
  | some v =>
    rw [normalizeHex_some_eq]
    by_cases h0 : v = []
    · rw [if_pos h0]; exact Or.inl rfl
    · rw [if_neg h0]
      by_cases h1 : v = hex0x
      · rw [if_pos h1]; exact Or.inl rfl
      · rw [if_neg h1]
        refine Or.inr ?_
        set rest := (if v.take 2 = hex0x then v.drop 2 else v) with hrest
        have hne : rest ≠ [] := by
          rw [hrest]
          by_cases ht : v.take 2 = hex0x
          · rw [if_pos ht]
            intro hd
            have hlen : v.length ≤ 2 := by
              have := List.drop_eq_nil_iff.mp hd
              omega
            have : v.take 2 = v := List.take_of_length_le hlen
            exact h1 (this ▸ ht ▸ rfl)
          · rw [if_neg ht]; exact h0
        constructor
        · rw [show lowerStr (hex0x ++ rest) = lowerStr hex0x ++ lowerStr rest by
            simp [lowerStr]]
          rw [lowerStr_hex0x]
          rw [show (2 : Nat) = hex0x.length from hex0x_length.symm]
          exact List.take_left hex0x (lowerStr rest)
        constructor
        · have : rest.length ≠ 0 := fun h => hne (List.eq_nil_of_length_eq_zero h)
          simp only [lowerStr, List.length_map, List.length_append]
          have h2 : hex0x.length = 2 := hex0x_length
          omega
        · exact lowerStr_idem _

/-- `normalizeHex` is the identity on already-normalized strings. -/
theorem normalizeHex_fixpoint {l : List Char} (h : isNormalizedHex l) :
    normalizeHex (some l) = l := by
  rcases h with h | ⟨ht, hl, hlow⟩
  · subst h; decide
  · rw [normalizeHex_some_eq]
    have h0 : l ≠ [] := by
      intro hd; rw [hd] at hl; simp at hl
    have h1 : l ≠ hex0x := by
      intro hd; rw [hd] at hl; rw [hex0x_length] at hl; omega
    rw [if_neg h0, if_neg h1, if_pos ht]
    conv_lhs => rw [show hex0x = l.take 2 from ht.symm]
    rw [List.take_append_drop, hlow]

/-- What a successful `ensureHex` guarantees about its output. -/
theorem ensureHex_some {w : Option (List Char)} {ds : List Char}
    (h : ensureHex w = some ds) :
    ds.take 2 = hex0x ∧ 2 < ds.length ∧ lowerStr ds = ds ∧
      normalizeHex (some ds) = ds ∧ ds ≠ hex0x ∧ ds ≠ [] := by
  match w with
  | none => simp [ensureHex] at h
  | some v =>
    rw [ensureHex_some_eq] at h
    by_cases h0 : v = []
    · rw [if_pos h0] at h; exact absurd h (by simp)
    · rw [if_neg h0] at h
      by_cases h1 : normalizeHex (some v) = hex0x
      · rw [if_pos h1] at h; exact absurd h (by simp)
      · rw [if_neg h1] at h
        have hds : ds = normalizeHex (some v) := (Option.some_injective _ h).symm
        have hn := normalizeHex_isNormalized (some v)
        rw [← hds] at hn h1
        rcases hn with hcon | ⟨ht, hl, hlow⟩
        · exact absurd hcon h1
        · refine ⟨ht, hl, hlow, normalizeHex_fixpoint (Or.inr ⟨ht, hl, hlow⟩), h1, ?_⟩
          intro hd; rw [hd] at hl; simp at hl

/-- Dropping the `0x` prefix commutes with `lowerStr` on lowercase-fixed
strings, and the pieces of normalized strings are lowercase-fixed. -/
theorem lowerStr_drop_fixed {l : List Char} (h : lowerStr l = l) :
    lowerStr (l.drop 2) = l.drop 2 := by
  have : lowerStr (l.drop 2) = (lowerStr l).drop 2 := by
    simp [lowerStr, List.map_drop]
  rw [this, h]

/-- Core structural fact: whenever a non-empty builder code encodes to a real
suffix `ds`, the result of `appendBuilderCodeToCalldata` is a normalized hex
string different from `0x` whose body ends with the suffix body. -/
theorem appendBuilderCodeToCalldata_spec (enc : List Char → List Char)
    (calldata c : List Char) (hc : c ≠ []) {ds : List Char}
    (hds : ensureHex (some (enc c)) = some ds) :
    isNormalizedHex (appendBuilderCodeToCalldata enc calldata (some c)) ∧
      appendBuilderCodeToCalldata enc calldata (some c) ≠ hex0x ∧
      List.isSuffixOf (ds.drop 2)
        ((appendBuilderCodeToCalldata enc calldata (some c)).drop 2) = true := by
  obtain ⟨hdt, hdl, hdlow, hdfix, hdne, hdnil⟩ := ensureHex_some hds
  rw [appendBuilderCodeToCalldata_some_eq, if_neg hc, hds]
  simp only
  rw [hdfix]
  by_cases hcz : normalizeHex (some calldata) = hex0x
  · rw [if_pos hcz]
    refine ⟨Or.inr ⟨hdt, hdl, hdlow⟩, hdne, ?_⟩
    simp [List.isSuffixOf_iff_suffix]
  · rw [if_neg hcz]
    have hnorm := normalizeHex_isNormalized (some calldata)
    rcases hnorm with hcon | ⟨hct, hcl, hclow⟩
    · exact absurd hcon hcz
    by_cases hsfx : List.isSuffixOf (ds.drop 2) ((normalizeHex (some calldata)).drop 2) = true
    · rw [if_pos hsfx]
      exact ⟨Or.inr ⟨hct, hcl, hclow⟩, hcz, hsfx⟩
    · rw [if_neg hsfx]
      set cb := (normalizeHex (some calldata)).drop 2 with hcb
      set sb := ds.drop 2 with hsb
      have hcbfix : lowerStr cb = cb := by rw [hcb]; exact lowerStr_drop_fixed hclow
      have hsbfix : lowerStr sb = sb := by rw [hsb]; exact lowerStr_drop_fixed hdlow
      have hsbne : sb ≠ [] := by
        rw [hsb]
        intro hd
        have := List.drop_eq_nil_iff.mp hd
        omega
      have hr : lowerStr (hex0x ++ cb ++ sb) = hex0x ++ cb ++ sb := by
        simp only [lowerStr, List.map_append]
        rw [show (hex0x.map Char.toLower) = lowerStr hex0x from rfl, lowerStr_hex0x,
          show (cb.map Char.toLower) = lowerStr cb from rfl, hcbfix,
          show (sb.map Char.toLower) = lowerStr sb from rfl, hsbfix]
      rw [hr]
      have hdrop : (hex0x ++ cb ++ sb).drop 2 = cb ++ sb := by
        rw [List.append_assoc]
        rw [show (2 : Nat) = hex0x.length from hex0x_length.symm]
        exact List.drop_left hex0x (cb ++ sb)
      have hlen : 2 < (hex0x ++ cb ++ sb).length := by
        have : sb.length ≠ 0 := fun h => hsbne (List.eq_nil_of_length_eq_zero h)
        simp only [List.length_append, hex0x_length]
        omega
      refine ⟨Or.inr ⟨?_, hlen, hr⟩, ?_, ?_⟩
      · rw [List.append_assoc]
        rw [show (2 : Nat) = hex0x.length from hex0x_length.symm]
        exact List.take_left hex0x (cb ++ sb)
      · intro hd
        rw [hd, hex0x_length] at hlen
        omega
      · rw [hdrop]
        simp [List.isSuffixOf_iff_suffix]

/-- Claim C2: `appendSuffix` is idempotent — appending the suffix derived
from the same builder code twice equals appending it once, for every
calldata, every builder code (including absent and empty), and every
deterministic external encoder.  A dispatch retry therefore never
double-encodes the attribution suffix. -/
theorem appendBuilderCodeToCalldata_idem (enc : List Char → List Char)
    (calldata : List Char) (code : Option (List Char)) :
    appendBuilderCodeToCalldata enc
        (appendBuilderCodeToCalldata enc calldata code) code =
      appendBuilderCodeToCalldata enc calldata code := by
  match code with
  | none => rfl
  | some c =>
    by_cases hc : c = []
    · rw [appendBuilderCodeToCalldata_some_eq, if_pos hc,
        appendBuilderCodeToCalldata_some_eq, if_pos hc]
    · match hE : ensureHex (some (enc c)) with
      | none =>
        have hinner : appendBuilderCodeToCalldata enc calldata (some c) =
            normalizeHex (some calldata) := by
          rw [appendBuilderCodeToCalldata_some_eq, if_neg hc, hE]
        conv_lhs => rw [appendBuilderCodeToCalldata_some_eq]
        rw [if_neg hc, hE]
        simp only
        rw [hinner]
        exact normalizeHex_fixpoint (normalizeHex_isNormalized (some calldata))
      | some ds =>
        obtain ⟨hdt, hdl, hdlow, hdfix, hdne, hdnil⟩ := ensureHex_some hE
        obtain ⟨hrn, hrne, hrsfx⟩ :=
          appendBuilderCodeToCalldata_spec enc calldata c hc hE
        conv_lhs => rw [appendBuilderCodeToCalldata_some_eq]
        rw [if_neg hc, hE]
        simp only
        rw [normalizeHex_fixpoint hrn, hdfix]
        rw [if_neg hrne, if_pos hrsfx]

/-- Claim C6: detection is sound with respect to appending — whenever the
builder code is non-empty and encodes to a real suffix `ds`, the appended
calldata is detected: `hasDataSuffix (appendSuffix data code) ds = true`. -/
theorem hasDataSuffix_appendBuilderCodeToCalldata (enc : List Char → List Char)
    (calldata c : List Char) (hc : c ≠ []) {ds : List Char}
    (hds : ensureHex (some (enc c)) = some ds) :
    hasDataSuffix (appendBuilderCodeToCalldata enc calldata (some c)) (some ds) = true := by
  obtain ⟨hdt, hdl, hdlow, hdfix, hdne, hdnil⟩ := ensureHex_some hds
  obtain ⟨hrn, hrne, hrsfx⟩ := appendBuilderCodeToCalldata_spec enc calldata c hc hds
  show (if ds = [] then false
    else
      if normalizeHex (some (appendBuilderCodeToCalldata enc calldata (some c))) = hex0x
      then false
      else List.isSuffixOf ((normalizeHex (some ds)).drop 2)
        ((normalizeHex (some (appendBuilderCodeToCalldata enc calldata (some c)))).drop 2)) = true
  rw [if_neg hdnil, normalizeHex_fixpoint hrn, if_neg hrne, hdfix]
  exact hrsfx

/-- Witness for C6 at a concrete encoder, calldata and code. -/
theorem hasDataSuffix_appendBuilderCodeToCalldata_witness :
    hasDataSuffix
        (appendBuilderCodeToCalldata (fun _ => lchars "0xaabb")
          (lchars "0x1234") (some (lchars "bc")))
        (some (lchars "0xaabb")) = true :=
  hasDataSuffix_appendBuilderCodeToCalldata (fun _ => lchars "0xaabb")
    (lchars "0x1234") (lchars "bc") (by decide) (by decide)

/-- Claim C9: with no builder code configured (absent or the empty string),
`appendBuilderCodeToCalldata` returns its input calldata exactly unchanged —
not even hex-normalized or lowercased. -/
theorem appendBuilderCodeToCalldata_no_code_identity (enc : List Char → List Char)
    (calldata : List Char) :
    appendBuilderCodeToCalldata enc calldata none = calldata ∧
      appendBuilderCodeToCalldata enc calldata (some []) = calldata := by
  constructor
  · rfl
  · rw [appendBuilderCodeToCalldata_some_eq, if_pos rfl]

/-- A JavaScript value as seen over the untrusted wallet RPC boundary. -/
inductive JsVal where
  | undef : JsVal
  | null : JsVal
  | bool : Bool → JsVal
  | num : Int → JsVal
  | str : String → JsVal
  | arr : List JsVal → JsVal
  | obj : List (String × JsVal) → JsVal

/-- JavaScript truthiness of a value. -/
def jsTruthy : JsVal → Bool
  | JsVal.undef => false
  | JsVal.null => false
  | JsVal.bool b => b
  | JsVal.num n => n != 0
  | JsVal.str s => s != ""
  | JsVal.arr _ => true
  | JsVal.obj _ => true

/-- JavaScript `typeof x === 'object'` (true for `null`, arrays, objects). -/
def jsTypeofObject : JsVal → Bool
  | JsVal.null => true
  | JsVal.arr _ => true
  | JsVal.obj _ => true
  | _ => false

/-- JavaScript property read `x[key]`: defined keys of plain objects,
`undefined` everywhere else. -/
def jsGet : JsVal → String → JsVal
  | JsVal.obj fields, key => (fields.lookup key).getD JsVal.undef
  | _, _ => JsVal.undef

/-- JavaScript nullish coalescing `a ?? b`. -/
def jsCoalesce (a b : JsVal) : JsVal :=
  match a with
  | JsVal.undef => b
  | JsVal.null => b
  | _ => a

/-- JavaScript `Array.isArray`. -/
def jsIsArray : JsVal → Bool
  | JsVal.arr _ => true
  | _ => false

/-- JavaScript `xs.includes(s)` for a string literal `s` (strict equality
can only hold for string elements). -/
def jsArrayIncludesStr : JsVal → String → Bool
  | JsVal.arr xs, s =>
    xs.any (fun x =>
      match x with
      | JsVal.str t => t == s
      | _ => false)
  | _, _ => false


/-- The `dataSuffix ?? data_suffix` read of `supportsDataSuffixCapability`
(`sendCallsCapabilities.ts`, lines 26-28). -/
def dataSuffixEntry (sendCallsCaps : JsVal) : JsVal :=
  jsCoalesce (jsGet sendCallsCaps "dataSuffix") (jsGet sendCallsCaps "data_suffix")

/-- Lines 30-38 of `sendCallsCapabilities.ts`: reduce the
`dataSuffix` entry to a boolean — a boolean flag is returned as is, an
object yields its boolean `supported` (else `enabled`) field, anything
else yields `false`. -/
def supportsFromEntry (dataSuffix : JsVal) : Bool :=
  match dataSuffix with
  | JsVal.bool b => b
  | v =>
    if jsTruthy v && jsTypeofObject v then
      match jsGet v "supported" with
      | JsVal.bool b => b
      | _ =>
        match jsGet v "enabled" with
        | JsVal.bool b => b
        | _ => false
    else false

/-- Lines 21-38 of `sendCallsCapabilities.ts`: an array of capability names
is searched for `'dataSuffix'`; a non-object short-circuits to `false`;
otherwise the `dataSuffix` entry is reduced. -/
def supportsFromCaps (sendCallsCaps : JsVal) : Bool :=
  if jsIsArray sendCallsCaps then jsArrayIncludesStr sendCallsCaps "dataSuffix"
  else if !(jsTruthy sendCallsCaps) || !(jsTypeofObject sendCallsCaps) then false
  else supportsFromEntry (dataSuffixEntry sendCallsCaps)

/-- Embeds `supportsDataSuffixCapability` (`sendCallsCapabilities.ts`,
lines 10-39): parse the untrusted `wallet_getCapabilities` response and
reduce it to a boolean. -/
def supportsDataSuffixCapability (capabilities : JsVal) : Bool :=
  if !(jsTruthy capabilities) || !(jsTypeofObject capabilities) then false
  else
    let sendCalls := jsGet capabilities "wallet_sendCalls"
    if !(jsTruthy sendCalls) || !(jsTypeofObject sendCalls) then false
    else supportsFromCaps (jsCoalesce (jsGet sendCalls "capabilities") sendCalls)

/-- Modelled from the spec: the `dataSuffix` entry has a recognized shape —
a boolean flag, or an object with a boolean `supported` or `enabled` field. -/
def recognizedFromEntry (ds : JsVal) : Bool :=
  match ds with
  | JsVal.bool _ => true
  | JsVal.obj _ =>
    (match jsGet ds "supported" with
     | JsVal.bool _ => true
     | _ =>
       match jsGet ds "enabled" with
       | JsVal.bool _ => true
       | _ => false)
  | _ => false

/-- Modelled from the spec: the capability container has a recognized
shape — an array of capability names, or a container whose
`dataSuffix`/`data_suffix` entry has a recognized shape. -/
def recognizedFromCaps (caps : JsVal) : Bool :=
  if jsIsArray caps then true
  else recognizedFromEntry (dataSuffixEntry caps)

/-- Modelled from the spec: the three recognized capability shapes — the
response is an object whose truthy-object `wallet_sendCalls` entry (directly
or through its `capabilities` field) is an array of capability names,
carries a boolean `dataSuffix`/`data_suffix` flag, or carries a
`dataSuffix`/`data_suffix` object with a boolean `supported` or `enabled`
field. -/
def recognizedCapabilityShape (v : JsVal) : Bool :=
  match v with
  | JsVal.obj _ =>
    let sendCalls := jsGet v "wallet_sendCalls"
    if !(jsTruthy sendCalls) || !(jsTypeofObject sendCalls) then false
    else recognizedFromCaps (jsCoalesce (jsGet sendCalls "capabilities") sendCalls)
  | _ => false

theorem supportsFromEntry_recognized (ds : JsVal)
    (h : supportsFromEntry ds = true) : recognizedFromEntry ds = true := by
  match ds with
  | JsVal.bool b => rfl
  | JsVal.undef => exact absurd h (by decide)
  | JsVal.null => exact absurd h (by decide)
  | JsVal.num n =>
    exact absurd h (by simp [supportsFromEntry, jsTruthy, jsTypeofObject])
  | JsVal.str s =>
    exact absurd h (by simp [supportsFromEntry, jsTruthy, jsTypeofObject])
  | JsVal.arr xs =>
    exact absurd h (by simp [supportsFromEntry, jsTruthy, jsTypeofObject, jsGet])
  | JsVal.obj fields =>
    simp only [supportsFromEntry, recognizedFromEntry, jsTruthy, jsTypeofObject,
      Bool.and_self, if_true] at h ⊢
    cases hsup : jsGet (JsVal.obj fields) "supported" <;>
      cases hen : jsGet (JsVal.obj fields) "enabled" <;>
        simp_all

/-- Unfolding equation of `supportsDataSuffixCapability` on an object. -/
theorem supportsDataSuffixCapability_obj_eq (fields : List (String × JsVal)) :
    supportsDataSuffixCapability (JsVal.obj fields) =
      (if !(jsTruthy (jsGet (JsVal.obj fields) "wallet_sendCalls")) ||
          !(jsTypeofObject (jsGet (JsVal.obj fields) "wallet_sendCalls")) then false
       else
         supportsFromCaps
           (jsCoalesce (jsGet (jsGet (JsVal.obj fields) "wallet_sendCalls") "capabilities")
             (jsGet (JsVal.obj fields) "wallet_sendCalls"))) := rfl

/-- Unfolding equation of `recognizedCapabilityShape` on an object. -/
theorem recognizedCapabilityShape_obj_eq (fields : List (String × JsVal)) :
    recognizedCapabilityShape (JsVal.obj fields) =
      (if !(jsTruthy (jsGet (JsVal.obj fields) "wallet_sendCalls")) ||
          !(jsTypeofObject (jsGet (JsVal.obj fields) "wallet_sendCalls")) then false
       else
         recognizedFromCaps
           (jsCoalesce (jsGet (jsGet (JsVal.obj fields) "wallet_sendCalls") "capabilities")
             (jsGet (JsVal.obj fields) "wallet_sendCalls"))) := rfl

theorem supportsFromCaps_recognized (caps : JsVal)
    (h : supportsFromCaps caps = true) : recognizedFromCaps caps = true := by
  by_cases hArr : jsIsArray caps = true
  · simp [recognizedFromCaps, hArr]
  · rw [supportsFromCaps, if_neg] at h
    · rw [recognizedFromCaps, if_neg]
      · by_cases hchk : (!(jsTruthy caps) || !(jsTypeofObject caps)) = true
        · rw [if_pos hchk] at h
          exact absurd h (by decide)
        · rw [if_neg hchk] at h
          exact supportsFromEntry_recognized _ h
      · exact fun hc => hArr hc
    · exact fun hc => hArr hc

/-- Claim C10: `supportsDataSuffixCapability` is total over arbitrary
untrusted values (it is a Lean function into `Bool`, so it returns a boolean
on every input and never throws); every primitive input and every top-level
array yields `false`, and whenever it returns `true` the input had one of
the three recognized capability shapes. -/
theorem supportsDataSuffixCapability_recognized_shapes :
    (supportsDataSuffixCapability JsVal.undef = false) ∧
    (supportsDataSuffixCapability JsVal.null = false) ∧
    (∀ b, supportsDataSuffixCapability (JsVal.bool b) = false) ∧
    (∀ n, supportsDataSuffixCapability (JsVal.num n) = false) ∧
    (∀ s, supportsDataSuffixCapability (JsVal.str s) = false) ∧
    (∀ xs, supportsDataSuffixCapability (JsVal.arr xs) = false) ∧
    (∀ v, supportsDataSuffixCapability v = true → recognizedCapabilityShape v = true) := by
  refine ⟨rfl, rfl, ?_, ?_, ?_, ?_, ?_⟩
  · intro b; cases b <;> rfl
  · intro n; simp [supportsDataSuffixCapability, jsTruthy, jsTypeofObject]
  · intro s; simp [supportsDataSuffixCapability, jsTruthy, jsTypeofObject]
  · intro xs
    simp [supportsDataSuffixCapability, jsTruthy, jsTypeofObject, jsGet,
      supportsFromCaps, jsIsArray, jsCoalesce, dataSuffixEntry, supportsFromEntry]
  · intro v h
    match v with
    | JsVal.undef => exact absurd h (by decide)
    | JsVal.null => exact absurd h (by decide)
    | JsVal.bool b => cases b <;> exact absurd h (by decide)
    | JsVal.num n =>
      exact absurd h (by simp [supportsDataSuffixCapability, jsTruthy, jsTypeofObject])
    | JsVal.str s =>
      exact absurd h (by simp [supportsDataSuffixCapability, jsTruthy, jsTypeofObject])
    | JsVal.arr xs =>
      exact absurd h (by
        simp [supportsDataSuffixCapability, jsTruthy, jsTypeofObject, jsGet,
          supportsFromCaps, jsIsArray, jsCoalesce, dataSuffixEntry, supportsFromEntry])
    | JsVal.obj fields =>
      rw [supportsDataSuffixCapability_obj_eq] at h
      rw [recognizedCapabilityShape_obj_eq]
      by_cases hchk :
          (!(jsTruthy (jsGet (JsVal.obj fields) "wallet_sendCalls")) ||
            !(jsTypeofObject (jsGet (JsVal.obj fields) "wallet_sendCalls"))) = true
      · rw [if_pos hchk] at h
        exact absurd h (by decide)
      · rw [if_neg hchk] at h
        rw [if_neg hchk]
        exact supportsFromCaps_recognized _ h

/-- Witness for C10 at a concrete recognized response. -/
theorem supportsDataSuffixCapability_recognized_shapes_witness :
    recognizedCapabilityShape
      (JsVal.obj [("wallet_sendCalls",
        JsVal.obj [("capabilities", JsVal.arr [JsVal.str "dataSuffix"])])]) = true :=
  supportsDataSuffixCapability_recognized_shapes.2.2.2.2.2.2
    (JsVal.obj [("wallet_sendCalls",
      JsVal.obj [("capabilities", JsVal.arr [JsVal.str "dataSuffix"])])])
    (by decide)

/-- A connected wallet client as seen by the capability detector: an
identity (to express "the wallet client changed") and the outcome of its
`wallet_getCapabilities` request (`Except.error` models a thrown request). -/
structure WalletClientLike where
  clientId : Nat
  response : Except Unit JsVal

/-- Embeds `getSendCallsDataSuffixSupport` (`sendCallsCapabilities.ts`,
lines 41-67) as a sequential state-passing function over the module-level
cache `cachedDataSuffixSupport`.  Returns the answer together with the new
cache contents.  (The in-flight-promise deduplication of lines 44 and 62 is
concurrency-only behaviour and has no effect on the sequential result.) -/
def getSendCallsDataSuffixSupport (cache : Option Bool)
    (walletClient : Option WalletClientLike) : Bool × Option Bool :=
  match walletClient with
  | none => (false, cache)
  | some wc =>
    match cache with
    | some b => (b, cache)
    | none =>
      match wc.response with
      | Except.ok caps =>
        let supported := supportsDataSuffixCapability caps
        (supported, some supported)
      | Except.error _ => (false, some false)

/-- A wallet whose capability response declares `dataSuffix` support. -/
def walletDeclaringSupport : WalletClientLike :=
  { clientId := 0,
    response := Except.ok (JsVal.obj [("wallet_sendCalls",
      JsVal.obj [("capabilities", JsVal.arr [JsVal.str "dataSuffix"])])]) }

/-- A different wallet client (fresh identity) that declares no support. -/
def walletDeclaringNoSupport : WalletClientLike :=
  { clientId := 1, response := Except.ok (JsVal.obj []) }

/-- Counterexample to claim C5: the cached result is NOT invalidated when
the wallet client identity changes.  After detection ran against a wallet
that declared support, a detection against a different wallet client (a
fresh identity whose own response declares no support) still returns the
stale cached `true` and leaves the cache filled — it never returns to the
unknown state. -/
theorem capabilitySupport_cache_not_invalidated :
    walletDeclaringSupport.clientId ≠ walletDeclaringNoSupport.clientId ∧
    supportsDataSuffixCapability (JsVal.obj []) = false ∧
    getSendCallsDataSuffixSupport none (some walletDeclaringSupport) = (true, some true) ∧
    getSendCallsDataSuffixSupport (some true) (some walletDeclaringNoSupport) =
      (true, some true) := by
  refine ⟨by decide, by decide, ?_, rfl⟩
  decide

/-- Claim C5 as amended: the cached capability result is process-wide and
lives for the rest of the process — once filled it is reused unchanged for
every later detection, for any wallet client whatsoever (any identity, any
response), and is never invalidated back to the unknown (`none`) state. -/
theorem getSendCallsDataSuffixSupport_cache_persists (b : Bool)
    (wc : WalletClientLike) :
    getSendCallsDataSuffixSupport (some b) (some wc) = (b, some b) := rfl

/-- JavaScript `haystack.includes(needle)` on strings. -/
def includesSub (needle hay : List Char) : Bool := decide (needle <:+: hay)

/-- The caller-observable transaction states of `useGameContractTx.ts`
(line 18): `'idle' | 'needs_wallet' | 'sending' | 'sent' | 'confirmed' |
'cancelled' | 'error'`. -/
inductive TxState where
  | idle : TxState
  | needsWallet : TxState
  | sending : TxState
  | sent : TxState
  | confirmed : TxState
  | cancelled : TxState
  | error : TxState
deriving DecidableEq

/-- A wallet error as inspected by `isUserRejected` (`useGameContractTx.ts`,
lines 38-41): an optional numeric `code` and an optional `message`. -/
structure RejectionError where
  code : Option Int := none
  message : Option (List Char) := none

/-- Embeds `isUserRejected`:
`err?.code === 4001 || err?.message?.toLowerCase().includes('user rejected')`. -/
def isUserRejected (e : RejectionError) : Bool :=
  e.code == some 4001 ||
    (match e.message with
     | some m => includesSub (lchars "user rejected") (lowerStr m)
     | none => false)

/-- Embeds the catch-handler of `sendContractCall` (`useGameContractTx.ts`,
lines 334-342): a user-rejected dispatch error becomes `cancelled`, any
other dispatch error becomes `error`. -/
def dispatchCatchState (e : RejectionError) : TxState :=
  if isUserRejected e then TxState.cancelled else TxState.error

/-- Embeds the auto-reset delay table (`useGameContractTx.ts`,
lines 153-160): `none` means no reset timer is scheduled for the state. -/
def resetDelayMs : TxState → Option Nat
  | TxState.needsWallet => some 3000
  | TxState.cancelled => some 3000
  | TxState.error => some 3000
  | TxState.sent => some 6000
  | TxState.confirmed => some 8000
  | _ => none

/-- The mutable state of the `useGameContractTx` hook that the status
tracker reads and writes: the current status plus whether a bundle id
(`callId`) and a legacy transaction hash (`txHash`) are outstanding. -/
structure HookState where
  st : TxState
  hasCallId : Bool
  hasTxHash : Bool
deriving DecidableEq

/-- The status-writing events of `useGameContractTx.ts`: the three write
sites at dispatch entry (`ensureReady` failures and `setStatus sending`),
the four dispatch outcomes, the two poller effects (lines 112-130 for the
bundle poller and 140-145 for the receipt poller) and the auto-reset timer
(lines 147-175). -/
inductive HookEv where
  | beginNeedsWallet : HookEv
  | beginError : HookEv
  | beginSending : HookEv
  | sentCalls : HookEv
  | sentTx : HookEv
  | userRejected : HookEv
  | dispatchFailed : HookEv
  | callsSuccess : HookEv
  | callsFailure : HookEv
  | receiptConfirmed : HookEv
  | resetFire : HookEv
deriving DecidableEq

/-- One status-writing step of the hook.  The poller events carry exactly
the guards present in the code: the bundle poller fires whenever a `callId`
is outstanding (line 113 checks only `callId`, not the current status) and
the receipt poller whenever a `txHash` is outstanding; the reset timer fires
exactly for the states given a delay by `resetDelayMs`.  The dispatch-
completion events are modelled in the sequential case, while the dispatch's
`sending` status is still current.  `none` means the event is not enabled. -/
def hookStep (s : HookState) : HookEv → Option HookState
  | HookEv.beginNeedsWallet => some { s with st := TxState.needsWallet }
  | HookEv.beginError => some { s with st := TxState.error }
  | HookEv.beginSending => some { s with st := TxState.sending }
  | HookEv.sentCalls =>
    if s.st = TxState.sending then
      some { st := TxState.sent, hasCallId := true, hasTxHash := s.hasTxHash }
    else none
  | HookEv.sentTx =>
    if s.st = TxState.sending then
      some { st := TxState.sent, hasCallId := s.hasCallId, hasTxHash := true }
    else none
  | HookEv.userRejected =>
    if s.st = TxState.sending then some { s with st := TxState.cancelled } else none
  | HookEv.dispatchFailed =>
    if s.st = TxState.sending then some { s with st := TxState.error } else none
  | HookEv.callsSuccess =>
    if s.hasCallId then
      some { st := TxState.confirmed, hasCallId := false, hasTxHash := s.hasTxHash }
    else none
  | HookEv.callsFailure =>
    if s.hasCallId then
      some { st := TxState.error, hasCallId := false, hasTxHash := s.hasTxHash }
    else none
  | HookEv.receiptConfirmed =>
    if s.hasTxHash then
      some { st := TxState.confirmed, hasCallId := s.hasCallId, hasTxHash := false }
    else none
  | HookEv.resetFire =>
    if (resetDelayMs s.st).isSome then some { s with st := TxState.idle } else none

/-- Run a sequence of hook events from a state. -/
def runHook (s : HookState) : List HookEv → Option HookState
  | [] => some s
  | e :: rest =>
    match hookStep s e with
    | none => none
    | some s2 => runHook s2 rest

/-- Modelled from the spec: the status transition table of the Status
Tracker — `Idle → NeedsWallet`, `Idle|NeedsWallet|Cancelled|Error →
Sending`, `Sending → Sent|Cancelled|Error`, `Sent → Confirmed|Error`, and
the timed auto-resets back to `Idle`.  `Idle → Confirmed` is not in the
table. -/
def specTableAllows : TxState → TxState → Bool
  | TxState.idle, TxState.needsWallet => true
  | TxState.idle, TxState.sending => true
  | TxState.needsWallet, TxState.sending => true
  | TxState.cancelled, TxState.sending => true
  | TxState.error, TxState.sending => true
  | TxState.sending, TxState.sent => true
  | TxState.sending, TxState.cancelled => true
  | TxState.sending, TxState.error => true
  | TxState.sent, TxState.confirmed => true
  | TxState.sent, TxState.error => true
  | TxState.needsWallet, TxState.idle => true
  | TxState.cancelled, TxState.idle => true
  | TxState.error, TxState.idle => true
  | TxState.sent, TxState.idle => true
  | TxState.confirmed, TxState.idle => true
  | _, _ => false

/-- Counterexample to claim C4: the transition `Idle → Confirmed` — the
claim's own example of an unreachable transition — is reachable.  A
dispatch goes `Sending → Sent` leaving a bundle id outstanding; the `Sent`
auto-reset fires after its medium grace window, returning the status to
`Idle` without clearing the bundle id; the bundle poller, which is gated
only on the outstanding id and not on the current status, then resolves and
writes `Confirmed` directly from `Idle`.  Nothing rejects this
out-of-table transition. -/
theorem txStatus_idle_to_confirmed_reachable :
    runHook { st := TxState.idle, hasCallId := false, hasTxHash := false }
        [HookEv.beginSending, HookEv.sentCalls, HookEv.resetFire] =
      some { st := TxState.idle, hasCallId := true, hasTxHash := false } ∧
    hookStep { st := TxState.idle, hasCallId := true, hasTxHash := false }
        HookEv.callsSuccess =
      some { st := TxState.confirmed, hasCallId := false, hasTxHash := false } ∧
    specTableAllows TxState.idle TxState.confirmed = false := by
  refine ⟨rfl, rfl, rfl⟩

/-- Claim C4 as amended: dispatch-driven transitions from `Sending` move
only to `Sent`, `Cancelled` or `Error`, but the poller-driven transitions
to `Confirmed`/`Error` are guarded only by an outstanding handle — not by
the current status — and the timed reset writes `Idle`; consequently
out-of-table transitions such as `Idle → Confirmed` (after the `Sent`
auto-reset) are reachable and are not rejected. -/
theorem hookStep_transition_characterization :
    (∀ s s2, hookStep s HookEv.sentCalls = some s2 →
      s.st = TxState.sending ∧ s2.st = TxState.sent) ∧
    (∀ s s2, hookStep s HookEv.sentTx = some s2 →
      s.st = TxState.sending ∧ s2.st = TxState.sent) ∧
    (∀ s s2, hookStep s HookEv.userRejected = some s2 →
      s.st = TxState.sending ∧ s2.st = TxState.cancelled) ∧
    (∀ s s2, hookStep s HookEv.dispatchFailed = some s2 →
      s.st = TxState.sending ∧ s2.st = TxState.error) ∧
    (∀ s s2, hookStep s HookEv.callsSuccess = some s2 →
      s.hasCallId = true ∧ s2.st = TxState.confirmed) ∧
    (∀ s s2, hookStep s HookEv.callsFailure = some s2 →
      s.hasCallId = true ∧ s2.st = TxState.error) ∧
    (∀ s s2, hookStep s HookEv.receiptConfirmed = some s2 →
      s.hasTxHash = true ∧ s2.st = TxState.confirmed) ∧
    (∀ s s2, hookStep s HookEv.resetFire = some s2 →
      (resetDelayMs s.st).isSome = true ∧ s2.st = TxState.idle) := by
  refine ⟨?_, ?_, ?_, ?_, ?_, ?_, ?_, ?_⟩ <;>
    intro s s2 h <;>
    simp only [hookStep] at h <;>
    split at h <;>
    simp_all <;>
    exact congrArg HookState.st h.symm

/-- Witness for the amended C4 theorem: the bundle-poller clause applied
where the current status is `Idle` — the guard that fires is the
outstanding handle, not the status. -/
theorem hookStep_transition_characterization_witness :
    ({ st := TxState.idle, hasCallId := true, hasTxHash := false } : HookState).hasCallId
        = true ∧
      ({ st := TxState.confirmed, hasCallId := false, hasTxHash := false } : HookState).st
        = TxState.confirmed :=
  hookStep_transition_characterization.2.2.2.2.1
    { st := TxState.idle, hasCallId := true, hasTxHash := false }
    { st := TxState.confirmed, hasCallId := false, hasTxHash := false }
    rfl

/-- Claim C7: every dispatch error recognized as a user rejection (the
code 4001 or a "user rejected" phrase) is mapped by the catch-handler to
`Cancelled` — never to `Error` — and `Cancelled` carries a reset timer
(the 3000 ms grace window) whose firing returns the status to `Idle`. -/
theorem userRejected_maps_to_cancelled (e : RejectionError)
    (h : isUserRejected e = true) :
    dispatchCatchState e = TxState.cancelled ∧
    dispatchCatchState e ≠ TxState.error ∧
    resetDelayMs TxState.cancelled = some 3000 ∧
    (∀ cid th, hookStep { st := TxState.cancelled, hasCallId := cid, hasTxHash := th }
        HookEv.resetFire =
      some { st := TxState.idle, hasCallId := cid, hasTxHash := th }) := by
  refine ⟨by simp [dispatchCatchState, h], by simp [dispatchCatchState, h], rfl, ?_⟩
  intro cid th
  rfl

/-- Witness for C7 at the well-known rejection code 4001. -/
theorem userRejected_maps_to_cancelled_witness :
    dispatchCatchState { code := some 4001, message := none } = TxState.cancelled ∧
    dispatchCatchState { code := some 4001, message := none } ≠ TxState.error ∧
    resetDelayMs TxState.cancelled = some 3000 ∧
    (∀ cid th, hookStep { st := TxState.cancelled, hasCallId := cid, hasTxHash := th }
        HookEv.resetFire =
      some { st := TxState.idle, hasCallId := cid, hasTxHash := th }) :=
  userRejected_maps_to_cancelled { code := some 4001, message := none } (by decide)

/-- The attribution modes of `useAttributionStatus.ts` and the dispatcher:
`'capabilities' | 'manual' | 'off'`. -/
inductive AttributionMode where
  | capabilities : AttributionMode
  | manual : AttributionMode
  | off : AttributionMode
deriving DecidableEq

/-- JavaScript truthiness of an optional string (`!!value`). -/
def strTruthy : Option (List Char) → Bool
  | none => false
  | some c => !(c.isEmpty)

/-- Embeds the mode selection of `useAttributionStatus`
(`hooks/useAttributionStatus.ts`, lines 46-52): no builder code → `off`;
force-manual → `manual`; detected support `true`/`false` →
`capabilities`/`manual`; detection still unresolved → `off`. -/
def useAttributionStatusMode (builderCode : Option (List Char)) (forceManual : Bool)
    (dataSuffixSupported : Option Bool) : AttributionMode :=
  if !(strTruthy builderCode) then AttributionMode.off
  else if forceManual then AttributionMode.manual
  else
    match dataSuffixSupported with
    | some true => AttributionMode.capabilities
    | some false => AttributionMode.manual
    | none => AttributionMode.off

/-- Claim C8: with an absent or empty builder code the selected mode is
`off` regardless of the capability-support value; with the force-manual
flag set and a non-empty builder code the selected mode is `manual`, even
when capability detection reports supported. -/
theorem attributionMode_selection :
    (∀ fm sup, useAttributionStatusMode none fm sup = AttributionMode.off) ∧
    (∀ fm sup, useAttributionStatusMode (some []) fm sup = AttributionMode.off) ∧
    (∀ code sup, code ≠ [] →
      useAttributionStatusMode (some code) true sup = AttributionMode.manual) := by
  refine ⟨fun fm sup => rfl, fun fm sup => rfl, ?_⟩
  intro code sup h
  have hne : code.isEmpty = false := by
    cases code with
    | nil => exact absurd rfl h
    | cons a t => rfl
  simp [useAttributionStatusMode, strTruthy, hne]

/-- Witness for C8: force-manual wins even when detection reports
supported. -/
theorem attributionMode_selection_witness :
    useAttributionStatusMode (some (lchars "bc")) true (some true) =
      AttributionMode.manual :=
  attributionMode_selection.2.2 (lchars "bc") (some true) (by decide)

/-- A wallet error as the dispatcher inspects it: `name`, `shortMessage`
and `message` feed the two classifiers, `code` and `message` feed the
outer catch's `isUserRejected` test. -/
structure ErrorLike where
  code : Option Int := none
  name : Option (List Char) := none
  shortMessage : Option (List Char) := none
  message : Option (List Char) := none
deriving DecidableEq

deriving instance DecidableEq for Except

/-- The lowercased haystack
`${err?.name ?? ''} ${err?.shortMessage ?? ''} ${err?.message ?? ''}`
built by both classifiers. -/
def errorHaystack (e : ErrorLike) : List Char :=
  lowerStr (e.name.getD [] ++ [' '] ++ e.shortMessage.getD [] ++ [' '] ++ e.message.getD [])

/-- Embeds `isSendCallsUnsupported` (`useGameContractTx.ts`,
lines 43-53 — the "protocol unsupported" classification): the haystack
mentions the batched-call method name, method-not-found, or
method-not-supported. -/
def isSendCallsUnsupported (e : ErrorLike) : Bool :=
  includesSub (lchars "wallet_sendcalls") (errorHaystack e) ||
  includesSub (lchars "sendcalls") (errorHaystack e) ||
  includesSub (lchars "eip-5792") (errorHaystack e) ||
  includesSub (lchars "method not found") (errorHaystack e) ||
  includesSub (lchars "method not supported") (errorHaystack e)

/-- Embeds `isCapabilitiesError` (`useGameContractTx.ts`, lines 55-64 —
the "capability rejected" classification): the haystack mentions
capabilities, the suffix field name, or invalid params.  (The source lists
`'dataSuffix'` as a fourth needle; after the haystack's `toLowerCase` it is
the `'datasuffix'` needle already present.) -/
def isCapabilitiesError (e : ErrorLike) : Bool :=
  includesSub (lchars "capabilities") (errorHaystack e) ||
  includesSub (lchars "datasuffix") (errorHaystack e) ||
  includesSub (lchars "invalid params") (errorHaystack e)


/-- JavaScript `s.replace('0x', '')`: remove the first occurrence of
`0x`, leave everything else unchanged. -/
def replaceFirst0x : List Char → List Char
  | [] => []
  | '0' :: 'x' :: rest => rest
  | c :: rest => c :: replaceFirst0x rest

/-- Embeds viem's `concatHex`:
a fresh `0x` prefix followed by
`values.reduce((acc, x) => acc + x.replace('0x', ''), '')`. -/
def concatHex (values : List (List Char)) : List Char :=
  hex0x ++ values.foldl (fun acc x => acc ++ replaceFirst0x x) []

namespace baseAttributionTs

/-- Embeds `buildDataSuffix` (`baseAttribution.ts`, lines 4-6):
`Attribution.toDataSuffix({ codes: [code] })`, with the external encoder
passed as `enc`. -/
def buildDataSuffix (enc : List Char → List Char) (code : List Char) : List Char :=
  enc code

/-- Embeds `appendBuilderCodeToCalldata` (`baseAttribution.ts`, lines 8-10 —
the unguarded revision, the one `useGameContractTx.ts` imports):
`concatHex([calldata, buildDataSuffix(code)])`, a plain concatenation with
no already-suffixed check. -/
def appendBuilderCodeToCalldata (enc : List Char → List Char)
    (calldata code : List Char) : List Char :=
  concatHex [calldata, buildDataSuffix enc code]

end baseAttributionTs

/-- Counterexample to claim C2 as frozen: the claim also names the
`baseAttribution.ts` revision of `appendBuilderCodeToCalldata` (lines
8-10), and that revision is not idempotent — applying it twice with the
same builder code appends the derived suffix twice. -/
theorem appendBuilderCodeToCalldata_concat_not_idem :
    baseAttributionTs.appendBuilderCodeToCalldata (fun _ => lchars "0xaabb")
        (baseAttributionTs.appendBuilderCodeToCalldata (fun _ => lchars "0xaabb")
          (lchars "0x1234") (lchars "bc_ynopiw2i"))
        (lchars "bc_ynopiw2i") ≠
      baseAttributionTs.appendBuilderCodeToCalldata (fun _ => lchars "0xaabb")
        (lchars "0x1234") (lchars "bc_ynopiw2i") := by
  decide

/-- The contract entry points of `useGameContractTx.ts`
(`'recordStart' | 'recordPlayAgain'`). -/
inductive FnName where
  | recordStart : FnName
  | recordPlayAgain : FnName
deriving DecidableEq

/-- The hardwired builder code of `useGameContractTx.ts` (line 35);
`BUILDER_DATA_SUFFIX` (line 36) is `enc BUILDER_CODE`. -/
def BUILDER_CODE : List Char := lchars "bc_ynopiw2i"

/-- A call as the hook's `sendCallsAsync` payloads carry it
(`{ to, abi, functionName }` — there is no `data` field; the wallet layer
encodes the calldata from the ABI and function name). -/
structure HookCall where
  toAddr : Nat
  functionName : FnName
deriving DecidableEq

/-- A batched payload of the hook: calls, chain, account, and the
capability field (`some ds` models `capabilities: { dataSuffix: { data:
ds } }`, `none` an absent capabilities key). -/
structure HookBatchPayload where
  calls : List HookCall
  chainId : Nat
  account : Option Nat
  capabilitiesDataSuffix : Option (List Char)
deriving DecidableEq

/-- One wallet-interaction submission attempt (one wallet prompt) of the
hook, in order of occurrence: a batched `sendCallsAsync` submission, a
legacy `sendTransactionAsync` call (target, calldata, value, chain), or a
`writeContractAsync` call (function name and the `dataSuffix` parameter
passed along). -/
inductive HookAttempt where
  | batched : HookBatchPayload → HookAttempt
  | sendTransaction : Nat → List Char → Int → Nat → HookAttempt
  | writeContract : FnName → List Char → HookAttempt
deriving DecidableEq

/-- The wallet functions available to one dispatch of the hook, with their
prescribed outcomes: `sendCallsOutcome n` is the outcome of the n-th
batched submission of the dispatch, `simulateOutcome n` the outcome of the
n-th `publicClient.simulateContract` query. -/
structure HookWalletBehavior where
  sendCallsAvailable : Bool
  sendCallsOutcome : Nat → Except ErrorLike Nat
  sendTransactionAvailable : Bool
  sendTransactionOutcome : Except ErrorLike (List Char)
  writeContractAvailable : Bool
  writeContractOutcome : Except ErrorLike (List Char)
  publicClientAvailable : Bool
  simulateOutcome : Nat → Except ErrorLike Unit

/-- The caller-visible outcome of one `sendContractCall` dispatch. -/
inductive HookDispatchOutcome where
  | notReady : HookDispatchOutcome
  | sentCalls : Nat → HookDispatchOutcome
  | sentTx : List Char → HookDispatchOutcome
  | cancelled : HookDispatchOutcome
  | errored : HookDispatchOutcome
deriving DecidableEq

/-- The error fields the outer catch of `sendContractCall` reads:
`isUserRejected` looks at `err?.code` and `err?.message`. -/
def toRejectionError (e : ErrorLike) : RejectionError :=
  { code := e.code, message := e.message }

/-- Embeds `sendWithManualTransaction` (`useGameContractTx.ts`,
lines 245-264): require `sendTransactionAsync`, simulate via
`simulateWrite` (which requires the public client), encode the base
calldata, append the builder suffix with the unguarded
`baseAttribution.ts` append, and submit.  Returns the
hash-or-thrown-error, the wallet prompts performed, and the number of
simulation queries consumed. -/
def sendWithManualTransaction (enc : List Char → List Char)
    (w : HookWalletBehavior) (functionName : FnName)
    (encodeFn : FnName → List Char) (toAddr chainId : Nat) :
    Except ErrorLike (List Char) × List HookAttempt × Nat :=
  if !w.sendTransactionAvailable then
    (Except.error { message := some (lchars "sendTransaction is unavailable.") }, [], 0)
  else if !w.publicClientAvailable then
    (Except.error
      { message := some (lchars "Public client not available for simulation.") }, [], 0)
  else
    match w.simulateOutcome 0 with
    | Except.error e => (Except.error e, [], 1)
    | Except.ok _ =>
      let baseData := encodeFn functionName
      let data := baseAttributionTs.appendBuilderCodeToCalldata enc baseData BUILDER_CODE
      match w.sendTransactionOutcome with
      | Except.ok hash =>
        (Except.ok hash, [HookAttempt.sendTransaction toAddr data 0 chainId], 1)
      | Except.error e =>
        (Except.error e, [HookAttempt.sendTransaction toAddr data 0 chainId], 1)

/-- Embeds `sendWithWriteContract` (`useGameContractTx.ts`, lines 231-243):
require `writeContractAsync`, simulate via `simulateWrite`, then submit
with the `dataSuffix` parameter set to `BUILDER_DATA_SUFFIX`.  `simIdx` is
the index of the simulation query this call consumes. -/
def sendWithWriteContract (enc : List Char → List Char) (w : HookWalletBehavior)
    (functionName : FnName) (simIdx : Nat) :
    Except ErrorLike (List Char) × List HookAttempt :=
  if !w.writeContractAvailable then
    (Except.error { message := some (lchars "writeContract is unavailable.") }, [])
  else if !w.publicClientAvailable then
    (Except.error
      { message := some (lchars "Public client not available for simulation.") }, [])
  else
    match w.simulateOutcome simIdx with
    | Except.error e => (Except.error e, [])
    | Except.ok _ =>
      match w.writeContractOutcome with
      | Except.ok hash =>
        (Except.ok hash, [HookAttempt.writeContract functionName (enc BUILDER_CODE)])
      | Except.error e =>
        (Except.error e, [HookAttempt.writeContract functionName (enc BUILDER_CODE)])

/-- The legacy tail of `sendContractCall` (lines 320-333): try
`sendWithManualTransaction` and swallow its failure (the catch at
line 326 only logs), then fall through to `sendWithWriteContract`, whose
error propagates to the outer catch.  `attempts` is the list of wallet
prompts already performed by the batched path. -/
def sendContractCallLegacy (enc : List Char → List Char) (w : HookWalletBehavior)
    (functionName : FnName) (encodeFn : FnName → List Char) (toAddr chainId : Nat)
    (attempts : List HookAttempt) :
    Except ErrorLike HookDispatchOutcome × List HookAttempt :=
  match sendWithManualTransaction enc w functionName encodeFn toAddr chainId with
  | (Except.ok hash, att2, _) =>
    (Except.ok (HookDispatchOutcome.sentTx hash), attempts ++ att2)
  | (Except.error _, att2, sims) =>
    match sendWithWriteContract enc w functionName sims with
    | (Except.ok hash, att3) =>
      (Except.ok (HookDispatchOutcome.sentTx hash), attempts ++ att2 ++ att3)
    | (Except.error e, att3) => (Except.error e, attempts ++ att2 ++ att3)

/-- The outer catch of `sendContractCall` (lines 334-342): a thrown error
becomes `cancelled` when recognized as a user rejection and `errored`
otherwise; a normal return passes through.  The attempts are unaffected. -/
def catchOutcome (r : Except ErrorLike HookDispatchOutcome × List HookAttempt) :
    HookDispatchOutcome × List HookAttempt :=
  match r with
  | (Except.ok o, att) => (o, att)
  | (Except.error e, att) =>
    ((if isUserRejected (toRejectionError e) then HookDispatchOutcome.cancelled
      else HookDispatchOutcome.errored), att)

/-- Embeds `sendContractCall` (`useGameContractTx.ts`, lines 266-345), the
dispatcher the application invokes.  `ready` is the result of
`ensureReady()`; `enc` the external suffix encoder; `encodeFn` the ABI
encoder (`encodeFunctionData`).  Alongside the caller-visible outcome the
model returns the list of wallet-interaction submission attempts, in
order: the batched attempt carrying the capability field; on a
capability-classified error one batched retry with the same calls and no
capability field, whose own failure is swallowed (line 311); then —
unless the original error fails the `isSendCallsUnsupported` test, in
which case it is rethrown — the legacy `sendTransaction` attempt and the
final `writeContract` attempt. -/
def sendContractCall (enc : List Char → List Char) (ready : Bool)
    (w : HookWalletBehavior) (functionName : FnName)
    (encodeFn : FnName → List Char) (toAddr chainId : Nat) (account : Option Nat) :
    HookDispatchOutcome × List HookAttempt :=
  if !ready then (HookDispatchOutcome.notReady, [])
  else
    catchOutcome
      (if w.sendCallsAvailable then
        let payload : HookBatchPayload :=
          { calls := [{ toAddr := toAddr, functionName := functionName }],
            chainId := chainId, account := account,
            capabilitiesDataSuffix := some (enc BUILDER_CODE) }
        match w.sendCallsOutcome 0 with
        | Except.ok id =>
          (Except.ok (HookDispatchOutcome.sentCalls id), [HookAttempt.batched payload])
        | Except.error e =>
          if isCapabilitiesError e then
            let retryPayload : HookBatchPayload :=
              { calls := [{ toAddr := toAddr, functionName := functionName }],
                chainId := chainId, account := account, capabilitiesDataSuffix := none }
            match w.sendCallsOutcome 1 with
            | Except.ok id =>
              (Except.ok (HookDispatchOutcome.sentCalls id),
               [HookAttempt.batched payload, HookAttempt.batched retryPayload])
            | Except.error _ =>
              if !(isSendCallsUnsupported e) then
                (Except.error e,
                 [HookAttempt.batched payload, HookAttempt.batched retryPayload])
              else
                sendContractCallLegacy enc w functionName encodeFn toAddr chainId
                  [HookAttempt.batched payload, HookAttempt.batched retryPayload]
          else
            if !(isSendCallsUnsupported e) then
              (Except.error e, [HookAttempt.batched payload])
            else
              sendContractCallLegacy enc w functionName encodeFn toAddr chainId
                [HookAttempt.batched payload]
      else sendContractCallLegacy enc w functionName encodeFn toAddr chainId [])

/-- A wallet whose first batched submission fails with an
"invalid params" capability rejection (not matching the
protocol-unsupported test) and whose batched retry succeeds. -/
def hookCapRejectedWallet : HookWalletBehavior :=
  { sendCallsAvailable := true,
    sendCallsOutcome := fun n =>
      if n = 0 then Except.error { message := some (lchars "invalid params") }
      else Except.ok 7,
    sendTransactionAvailable := true,
    sendTransactionOutcome := Except.ok (lchars "0xabc123"),
    writeContractAvailable := true,
    writeContractOutcome := Except.ok (lchars "0xdef456"),
    publicClientAvailable := true,
    simulateOutcome := fun _ => Except.ok () }

/-- Counterexample to claim C1: on a capability-rejected first batched
attempt the cited dispatcher does retry once as a batched submission with
no capability field, but the retry's payload carries the same unmodified
`{to, functionName}` calls as the first attempt — no attribution suffix is
appended to any call's data (the calls carry no calldata at all for a
suffix to live in), contrary to "with the attribution suffix manually
appended to every call's data". -/
theorem sendContractCall_retry_without_suffix :
    sendContractCall (fun _ => lchars "0xaabb") true hookCapRejectedWallet
        FnName.recordStart (fun _ => lchars "0x1234") 5 8453 (some 1) =
      (HookDispatchOutcome.sentCalls 7,
       [HookAttempt.batched
          { calls := [{ toAddr := 5, functionName := FnName.recordStart }],
            chainId := 8453, account := some 1,
            capabilitiesDataSuffix := some (lchars "0xaabb") },
        HookAttempt.batched
          { calls := [{ toAddr := 5, functionName := FnName.recordStart }],
            chainId := 8453, account := some 1,
            capabilitiesDataSuffix := none }]) := by
  decide

/-- Claim C1 as amended: on a first batched submission failing with a
capability-classified error, the cited dispatcher performs exactly one
batched retry whose payload carries the same unmodified calls — no manual
suffix — and no capability field.  A successful retry is final; a failed
retry is swallowed, after which the original error decides: if it does
not also match the protocol-unsupported classification it is rethrown and
the dispatch ends at the outer catch, otherwise the dispatcher falls
through to the legacy path, so the retry's outcome is final for the
batched path but not necessarily for the dispatch. -/
theorem sendContractCall_capabilityRejected_retry
    (enc : List Char → List Char) (w : HookWalletBehavior)
    (functionName : FnName) (encodeFn : FnName → List Char)
    (toAddr chainId : Nat) (account : Option Nat) (e : ErrorLike)
    (hw : w.sendCallsAvailable = true)
    (h0 : w.sendCallsOutcome 0 = Except.error e)
    (hcap : isCapabilitiesError e = true) :
    sendContractCall enc true w functionName encodeFn toAddr chainId account =
      (match w.sendCallsOutcome 1 with
       | Except.ok id =>
         (HookDispatchOutcome.sentCalls id,
          [HookAttempt.batched
             { calls := [{ toAddr := toAddr, functionName := functionName }],
               chainId := chainId, account := account,
               capabilitiesDataSuffix := some (enc BUILDER_CODE) },
           HookAttempt.batched
             { calls := [{ toAddr := toAddr, functionName := functionName }],
               chainId := chainId, account := account,
               capabilitiesDataSuffix := none }])
       | Except.error _ =>
         if !(isSendCallsUnsupported e) then
           catchOutcome
             (Except.error e,
              [HookAttempt.batched
                 { calls := [{ toAddr := toAddr, functionName := functionName }],
                   chainId := chainId, account := account,
                   capabilitiesDataSuffix := some (enc BUILDER_CODE) },
               HookAttempt.batched
                 { calls := [{ toAddr := toAddr, functionName := functionName }],
                   chainId := chainId, account := account,
                   capabilitiesDataSuffix := none }])
         else
           catchOutcome
             (sendContractCallLegacy enc w functionName encodeFn toAddr chainId
               [HookAttempt.batched
                  { calls := [{ toAddr := toAddr, functionName := functionName }],
                    chainId := chainId, account := account,
                    capabilitiesDataSuffix := some (enc BUILDER_CODE) },
                HookAttempt.batched
                  { calls := [{ toAddr := toAddr, functionName := functionName }],
                    chainId := chainId, account := account,
                    capabilitiesDataSuffix := none }])) := by
  simp only [sendContractCall, hw, h0, hcap, if_true]
  cases h1 : w.sendCallsOutcome 1 with
  | ok id => simp [catchOutcome]
  | error e2 =>
    by_cases hu : isSendCallsUnsupported e = true
    · simp [hu]
    · simp [hu]

/-- Witness for the amended C1 at a concrete dispatch with a successful
retry. -/
theorem sendContractCall_capabilityRejected_retry_witness :
    sendContractCall (fun _ => lchars "0xaabb") true hookCapRejectedWallet
        FnName.recordPlayAgain (fun _ => lchars "0x5678") 9 8453 none =
      (HookDispatchOutcome.sentCalls 7,
       [HookAttempt.batched
          { calls := [{ toAddr := 9, functionName := FnName.recordPlayAgain }],
            chainId := 8453, account := none,
            capabilitiesDataSuffix := some (lchars "0xaabb") },
        HookAttempt.batched
          { calls := [{ toAddr := 9, functionName := FnName.recordPlayAgain }],
            chainId := 8453, account := none,
            capabilitiesDataSuffix := none }]) := by
  rw [sendContractCall_capabilityRejected_retry (fun _ => lchars "0xaabb")
    hookCapRejectedWallet FnName.recordPlayAgain (fun _ => lchars "0x5678") 9 8453 none
    { message := some (lchars "invalid params") } rfl (by decide) (by decide)]
  decide

/-- A wallet whose batched submissions fail with an error matching both
the capability-rejected and the protocol-unsupported classifications,
whose legacy transaction also fails, and whose `writeContract` succeeds. -/
def hookFourPromptWallet : HookWalletBehavior :=
  { sendCallsAvailable := true,
    sendCallsOutcome := fun _ =>
      Except.error
        { message := some (lchars "wallet_sendCalls capabilities invalid params") },
    sendTransactionAvailable := true,
    sendTransactionOutcome := Except.error { message := some (lchars "intrinsic gas too low") },
    writeContractAvailable := true,
    writeContractOutcome := Except.ok (lchars "0xfeed"),
    publicClientAvailable := true,
    simulateOutcome := fun _ => Except.ok () }

/-- Counterexample to claim C3: a single dispatch of the cited dispatcher
can perform four wallet-interaction submission attempts — the batched
attempt, the capability-rejected batched retry, the legacy
`sendTransaction` attempt (its failure is swallowed by the catch at
line 326), and the final `writeContract` attempt — refuting "never three
or more". -/
theorem sendContractCall_four_prompts :
    sendContractCall (fun _ => lchars "0xaabb") true hookFourPromptWallet
        FnName.recordStart (fun _ => lchars "0x1234") 5 8453 (some 1) =
      (HookDispatchOutcome.sentTx (lchars "0xfeed"),
       [HookAttempt.batched
          { calls := [{ toAddr := 5, functionName := FnName.recordStart }],
            chainId := 8453, account := some 1,
            capabilitiesDataSuffix := some (lchars "0xaabb") },
        HookAttempt.batched
          { calls := [{ toAddr := 5, functionName := FnName.recordStart }],
            chainId := 8453, account := some 1,
            capabilitiesDataSuffix := none },
        HookAttempt.sendTransaction 5 (lchars "0x1234aabb") 0 8453,
        HookAttempt.writeContract FnName.recordStart (lchars "0xaabb")]) ∧
    (sendContractCall (fun _ => lchars "0xaabb") true hookFourPromptWallet
        FnName.recordStart (fun _ => lchars "0x1234") 5 8453 (some 1)).2.length = 4 := by
  refine ⟨by decide, by decide⟩

/-- `sendWithManualTransaction` performs at most one wallet prompt. -/
theorem sendWithManualTransaction_attempts_le_one (enc : List Char → List Char)
    (w : HookWalletBehavior) (functionName : FnName)
    (encodeFn : FnName → List Char) (toAddr chainId : Nat) :
    (sendWithManualTransaction enc w functionName encodeFn
        toAddr chainId).2.1.length ≤ 1 := by
  simp only [sendWithManualTransaction]
  split
  · simp
  · split
    · simp
    · split
      · simp
      · split <;> simp

/-- `sendWithWriteContract` performs at most one wallet prompt. -/
theorem sendWithWriteContract_attempts_le_one (enc : List Char → List Char)
    (w : HookWalletBehavior) (functionName : FnName) (simIdx : Nat) :
    (sendWithWriteContract enc w functionName simIdx).2.length ≤ 1 := by
  simp only [sendWithWriteContract]
  split
  · simp
  · split
    · simp
    · split
      · simp
      · split <;> simp

/-- The legacy tail adds at most two wallet prompts to those already
recorded. -/
theorem sendContractCallLegacy_attempts_le (enc : List Char → List Char)
    (w : HookWalletBehavior) (functionName : FnName)
    (encodeFn : FnName → List Char) (toAddr chainId : Nat)
    (attempts : List HookAttempt) :
    (sendContractCallLegacy enc w functionName encodeFn toAddr chainId
        attempts).2.length ≤ attempts.length + 2 := by
  have hm := sendWithManualTransaction_attempts_le_one enc w functionName
    encodeFn toAddr chainId
  simp only [sendContractCallLegacy]
  split
  · rename_i hash att2 x heq
    have hm2 : att2.length ≤ 1 := by simpa [heq] using hm
    simp only [List.length_append]
    omega
  · rename_i e att2 sims heq
    have hm2 : att2.length ≤ 1 := by simpa [heq] using hm
    have hw2 := sendWithWriteContract_attempts_le_one enc w functionName sims
    split
    · rename_i hash att3 heq2
      have hw3 : att3.length ≤ 1 := by simpa [heq2] using hw2
      simp only [List.length_append]
      omega
    · rename_i e2 att3 heq2
      have hw3 : att3.length ≤ 1 := by simpa [heq2] using hw2
      simp only [List.length_append]
      omega

/-- The outer catch leaves the recorded attempts unchanged. -/
theorem catchOutcome_snd (r : Except ErrorLike HookDispatchOutcome × List HookAttempt) :
    (catchOutcome r).2 = r.2 := by
  obtain ⟨o, att⟩ := r
  cases o <;> rfl

/-- Claim C3 as amended: a single dispatch of `sendContractCall` performs
at most four wallet-interaction submission attempts — the initial batched
attempt, at most one capability-rejected batched retry, and, when the
dispatch reaches the legacy tail, at most one `sendTransaction` attempt
followed by at most one `writeContract` attempt — for every readiness
flag, configuration, wallet behaviour and target. -/
theorem sendContractCall_attempts_le_four (enc : List Char → List Char)
    (ready : Bool) (w : HookWalletBehavior) (functionName : FnName)
    (encodeFn : FnName → List Char) (toAddr chainId : Nat) (account : Option Nat) :
    (sendContractCall enc ready w functionName encodeFn toAddr chainId
        account).2.length ≤ 4 := by
  simp only [sendContractCall]
  split
  · simp
  · rw [catchOutcome_snd]
    repeat' split
    all_goals
      first
        | (refine le_trans (sendContractCallLegacy_attempts_le _ _ _ _ _ _ _) ?_ <;> simp)
        | simp
